import Mathlib

/-!
Verification development for the brain-opt compiler (Rust sources under
`src/`).  The definitions below are shallow embeddings of the compiler's
data model and of the functions the claims refer to:

* `Token`, `Step`, `State` and its builder `State.append` — src/src/compiler.rs
* `State.combine`, `optimize_peephole_combine` — src/src/compiler.rs
* `StepInterpreter.step` and the `optimize_startup` driver loop
  — src/src/compiler.rs
* `Register64`, `Effects`, `Instruction` — src/src/instruction.rs
* the low-IR passes — src/src/optimizer.rs
* `read_byte` of the two ABI adapters — src/src/target_abi/{linux,macos}.rs

Machine integers are modelled as `Nat` carrying the source's width in a
comment; wrapping arithmetic is explicit (`% 2^w`), and operations that can
panic in the source (checked arithmetic, `unwrap`, out-of-bounds indexing)
return `Option`, with `none` for the panic.
-/

namespace BrainOpt

/-- The modulus of `u64` arithmetic. -/
def u64Mod : Nat := 2 ^ 64

/-- Wrapping `u64` subtraction (release-build semantics of Rust's `-` on
`u64`; a debug build panics when the subtraction underflows).  Both operands
are `u64` values, i.e. `< 2^64`. -/
def wsub64 (a b : Nat) : Nat := (u64Mod + a - b) % u64Mod

/-- `parser.rs`: the eight source tokens. -/
inductive Token where
  | Next
  | Prev
  | Increment
  | Decrement
  | Output
  | Input
  | JumpForwards
  | JumpBackwards
deriving DecidableEq, Repr

/-- `compiler.rs` `Step`: the high-IR instruction set.  High-IR labels are
the dense `usize` counter of `Label(pub usize)`, modelled as `Nat`. -/
inductive Step where
  /-- Move to right (`u64` magnitude) -/
  | Next (n : Nat)
  /-- Move to left (`u64` magnitude) -/
  | Prev (n : Nat)
  /-- Add to current cell (`u8` amount, wrapping) -/
  | Add (n : Nat)
  /-- Unconditional jump to label -/
  | JumpTo (l : Nat)
  /-- if cond == true, then jump on nonzero -/
  | JumpToIf (cond : Bool) (l : Nat)
  /-- Label meta-instruction -/
  | Label (l : Nat)
  /-- Call to write function -/
  | Output
  /-- Call to read function -/
  | Input
deriving DecidableEq, Repr

/-- `compiler.rs` `State`: the high-IR builder.  `scope` is the stack of
`(source_label, target_label)` pairs for open loops (head = top of stack). -/
structure State where
  scope : List (Nat × Nat)
  next_label : Nat
  steps : List Step
deriving DecidableEq, Repr

def State.new : State := ⟨[], 0, []⟩

/-- `State::append`: lowering of one token.  Returns `none` exactly where the
source panics (`scope.pop().unwrap()` on an empty stack — unreachable for
bracket-balanced token streams). -/
def State.append (s : State) (t : Token) : Option State :=
  match t with
  | .Next => some { s with steps := s.steps ++ [.Next 1] }
  | .Prev => some { s with steps := s.steps ++ [.Prev 1] }
  | .Increment => some { s with steps := s.steps ++ [.Add 1] }
  | .Decrement => some { s with steps := s.steps ++ [.Add 255] }
  | .Output => some { s with steps := s.steps ++ [.Output] }
  | .Input => some { s with steps := s.steps ++ [.Input] }
  | .JumpForwards =>
      let source_label := s.next_label
      let target_label := s.next_label + 1
      some { scope := (source_label, target_label) :: s.scope,
             next_label := s.next_label + 2,
             steps := s.steps ++ [.JumpToIf false target_label, .Label source_label] }
  | .JumpBackwards =>
      match s.scope with
      | [] => none
      | (source_label, target_label) :: rest =>
          some { scope := rest, next_label := s.next_label,
                 steps := s.steps ++ [.JumpToIf true source_label, .Label target_label] }

/-- Folding `State::append` over a token stream (the loop in
`compile_tokens`). -/
def State.appendAll (s : State) : List Token → Option State
  | [] => some s
  | t :: ts => (s.append t).bind (fun s2 => s2.appendAll ts)

/-- `State::combine`: the high-IR peephole pair combinator.  `Add` uses
`wrapping_add` on `u8`, `Next/Next` uses `wrapping_add` on `u64`,
`Prev/Prev` uses `checked_add(..).unwrap()` (`none` on overflow), and the
two cancellation arms use plain `u64` subtraction, which wraps in release
builds (and panics in debug builds) whenever it underflows.  The subtraction
operands are written exactly as in the source. -/
def State.combine (a b : Step) : Option (List Step) :=
  match a with
  | .Add v0 =>
      match b with
      | .Add v1 => some [.Add ((v0 + v1) % 256)]
      | _ => some [a, b]
  | .Next v0 =>
      match b with
      | .Next v1 => some [.Next ((v0 + v1) % u64Mod)]
      | .Prev v1 =>
          if v0 = v1 then some []
          else if v0 > v1 then some [.Next (wsub64 v0 v1)]
          else some [.Prev (wsub64 v1 v0)]
      | _ => some [a, b]
  | .Prev v0 =>
      match b with
      | .Prev v1 => if v0 + v1 < u64Mod then some [.Prev (v0 + v1)] else none
      | .Next v1 =>
          if v0 = v1 then some []
          else if v0 < v1 then some [.Next (wsub64 v0 v1)]
          else some [.Prev (wsub64 v1 v0)]
      | _ => some [a, b]
  | _ => some [a, b]

/-- `optimize_peephole_combine`'s loop, with the vector split at the cursor:
`frontRev` holds the (reversed) elements before `index`, the second argument
the elements from `index` on.  The source removes the pair at the cursor,
re-inserts `combine`'s result, and advances the cursor only when the result
equals the original pair. -/
def peepholeGo (frontRev : List Step) : List Step → Option (List Step)
  | a :: b :: rest =>
      match hc : State.combine a b with
      | none => none
      | some c =>
          if c = [a, b] then peepholeGo (a :: frontRev) (b :: rest)
          else peepholeGo frontRev (c ++ rest)
  | l => some (frontRev.reverse ++ l)
termination_by l => l.length
decreasing_by
  · simp
  · -- `combine` returns the unchanged pair or at most one step
    have hlen : c.length ≤ 1 := by
      cases a <;> cases b <;>
        simp only [State.combine] at hc <;>
        (try split at hc) <;> (try split at hc) <;>
        first
          | (cases hc; simp_all)
          | (injection hc with h; cases h; simp_all)
          | simp_all
    simp only [List.length_append, List.length_cons]
    omega

/-- `State::optimize_peephole_combine`. -/
def optimize_peephole_combine (steps : List Step) : Option (List Step) :=
  peepholeGo [] steps

/-- `Tape::add`: grow-on-write, then wrapping `u8` add at the cell. -/
def Tape.add (t : List Nat) (i : Nat) (v : Nat) : List Nat :=
  let t2 := t ++ List.replicate (i + 1 - t.length) 0
  t2.set i ((t2.getD i 0 + v) % 256)

/-- `Tape`'s `Index` impl: out-of-range reads yield zero. -/
def Tape.get (t : List Nat) (i : Nat) : Nat := t.getD i 0

/-- `compiler.rs` `StepInterpreterState`: tape cells are `u8` values,
`index`/`pointer` are `usize`. -/
structure StepInterpreterState where
  index : Nat
  tape : List Nat
  pointer : Nat
  output : List Nat
deriving DecidableEq, Repr

/-- `StepInterpreter::jump_to`: index of the first matching `Label` step
(`none` models the `unreachable!("Missing label")` panic). -/
def jumpToIdx (steps : List Step) (l : Nat) : Option Nat :=
  steps.findIdx? (fun s => decide (s = Step.Label l))

/-- `StepInterpreter::step`.  `none` models both `Input` (the source returns
`false`: blocked) and the panicking paths (`checked_add`/`checked_sub` on the
pointer, missing label); the distinction is irrelevant to the theorems below,
which prove the result is always `some`. -/
def StepInterpreter.step (steps : List Step) (s : StepInterpreterState) :
    Option StepInterpreterState :=
  match steps.get? s.index with
  | none => none
  | some op =>
      match op with
      | .Next n =>
          if s.pointer + n < u64Mod then
            some { s with pointer := s.pointer + n, index := s.index + 1 }
          else none
      | .Prev n =>
          if n ≤ s.pointer then
            some { s with pointer := s.pointer - n, index := s.index + 1 }
          else none
      | .Add n =>
          some { s with tape := Tape.add s.tape s.pointer n, index := s.index + 1 }
      | .JumpTo l => (jumpToIdx steps l).map (fun i => { s with index := i + 1 })
      | .JumpToIf cond l =>
          if cond = decide (Tape.get s.tape s.pointer ≠ 0) then
            (jumpToIdx steps l).map (fun i => { s with index := i + 1 })
          else some { s with index := s.index + 1 }
      | .Label _ => some { s with index := s.index + 1 }
      | .Output =>
          some { s with output := s.output ++ [Tape.get s.tape s.pointer],
                        index := s.index + 1 }
      | .Input => none

/-- One iteration of the driver loop in `State::optimize_startup`
(`while !intp.done() { if !intp.step() { break } }`): completed states
(`index = steps.len()`) are left untouched, otherwise one interpreter step
runs. -/
def startupLoopIter (steps : List Step) (o : Option StepInterpreterState) :
    Option StepInterpreterState :=
  o.bind fun s =>
    if s.index = steps.length then some s else StepInterpreter.step steps s

/-- The token sequence of the source program `"+[]"`. -/
def plusLoopTokens : List Token := [.Increment, .JumpForwards, .JumpBackwards]

/-- The Step vector `State::append` builds for `"+[]"`. -/
def plusLoopSteps : List Step :=
  [.Add 1, .JumpToIf false 1, .Label 0, .JumpToIf true 0, .Label 1]

/-- The interpreter state `optimize_startup` starts from. -/
def startupInit : StepInterpreterState := ⟨0, [], 0, []⟩

/-- `instruction.rs` `Register64`. -/
inductive Register64 where
  | rax
  | rbx
  | rcx
  | rdx
  | rsi
  | rdi
  | rsp
  | r10
  | r11
  | r12
deriving DecidableEq, Repr

/-- `instruction.rs` `Effects`: what effects an instruction causes. -/
structure Effects where
  flags : Bool
  registers : Bool
  control_flow : Bool
  stack : Bool
  io : Bool
deriving DecidableEq, Repr

/-- Volatile operation, should not be moved or eliminated. -/
def Effects.VOLATILE : Effects := ⟨true, true, true, true, true⟩

/-- Register-only operation. -/
def Effects.REG : Effects := ⟨false, true, false, false, false⟩

/-- Flag operation. -/
def Effects.FLAG : Effects := ⟨true, false, false, false, false⟩

/-- Register + Flag operation. -/
def Effects.ARITHMETIC : Effects := ⟨true, true, false, false, false⟩

/-- Jump. -/
def Effects.JUMP : Effects := ⟨false, false, true, false, false⟩

/-- Label, considering origin. -/
def Effects.LABEL : Effects := ⟨true, true, false, false, false⟩

/-- No-op. -/
def Effects.NOP : Effects := ⟨false, false, false, false, false⟩

/-- `instruction.rs` `Instruction`: the low IR.  Immediates carry the
source's width as `Nat` values (`u8`/`u16`/`u32`/`u64`). -/
inductive Instruction where
  | BlackBox (src : String) (e : Effects)
  | NamedBlackBox (name : String) (src : String) (e : Effects)
  | MovImm (r : Register64) (imm : Nat)
  | MovImmVar (r : Register64) (label : String)
  | Mov (r1 : Register64) (r2 : Register64)
  | MovPtr8Imm (r : Register64) (imm : Nat)
  | MovPtr16Imm (r : Register64) (imm : Nat)
  | MovPtr32Imm (r : Register64) (imm : Nat)
  | MovPtr64Imm (r : Register64) (imm : Nat)
  | AddImm (r : Register64) (imm : Nat)
  | SubImm (r : Register64) (imm : Nat)
  | AddPtr8Imm (r : Register64) (imm : Nat)
  | AddPtr16Imm (r : Register64) (imm : Nat)
  | AddPtr32Imm (r : Register64) (imm : Nat)
  | AddPtr64Imm (r : Register64) (imm : Nat)
  | IsZero (r : Register64)
  | IsZeroPtr8 (r : Register64)
  | JumpZero (l : String)
  | JumpNonZero (l : String)
  | Jump (l : String)
  | Label (l : String)
  | Data (name : String) (bytes : List Nat)
deriving DecidableEq, Repr

namespace Instruction

/-- `Instruction::effects`: returns `none` for static data, as it must not be
executed.  The `imm = 0` special cases mirror the source's `AddImm(_, 0)`
etc. match arms, which come before the general arithmetic arms. -/
def effects : Instruction → Option Effects
  | .BlackBox _ e => some e
  | .NamedBlackBox _ _ e => some e
  | .MovImm _ _ => some .REG
  | .MovImmVar _ _ => some .REG
  | .Mov _ _ => some .REG
  | .MovPtr8Imm _ _ => some .REG
  | .MovPtr16Imm _ _ => some .REG
  | .MovPtr32Imm _ _ => some .REG
  | .MovPtr64Imm _ _ => some .REG
  | .AddImm _ 0 => some .FLAG
  | .SubImm _ 0 => some .FLAG
  | .AddImm _ _ => some .ARITHMETIC
  | .SubImm _ _ => some .ARITHMETIC
  | .AddPtr8Imm _ 0 => some .FLAG
  | .AddPtr16Imm _ 0 => some .FLAG
  | .AddPtr32Imm _ 0 => some .FLAG
  | .AddPtr64Imm _ 0 => some .FLAG
  | .AddPtr8Imm _ _ => some .ARITHMETIC
  | .AddPtr16Imm _ _ => some .ARITHMETIC
  | .AddPtr32Imm _ _ => some .ARITHMETIC
  | .AddPtr64Imm _ _ => some .ARITHMETIC
  | .IsZero _ => some .FLAG
  | .IsZeroPtr8 _ => some .FLAG
  | .JumpZero _ => some .JUMP
  | .JumpNonZero _ => some .JUMP
  | .Jump _ => some .JUMP
  | .Label _ => some .LABEL
  | .Data _ _ => none

/-- `Instruction::affects_zero_flag`. -/
def affects_zero_flag (i : Instruction) : Bool :=
  (i.effects.map Effects.flags).getD false

end Instruction

/-- The loop of `optimize_start_cells`, with the vector split at the cursor:
`frontRev` holds the (reversed) elements before `index`.  On
`AddPtr8Imm(r,0)` the source calls `ops.remove(0)` — it removes the FIRST
element of the vector (the last of `frontRev`) and keeps the cursor, so the
current instruction shifts into the already-scanned region; when the cursor
is still at 0 the removed element is the current one. -/
def startCellsGo (frontRev : List Instruction) :
    List Instruction → List Instruction
  | [] => frontRev.reverse
  | op :: rest =>
      match op with
      | .AddPtr8Imm r0 imm =>
          if imm = 0 then
            match frontRev with
            | [] => startCellsGo [] rest
            | _ :: _ => startCellsGo (op :: frontRev.dropLast) rest
          else startCellsGo (.MovPtr8Imm r0 imm :: frontRev) rest
      | .AddImm _ _ => startCellsGo (op :: frontRev) rest
      | _ => frontRev.reverse ++ (op :: rest)

/-- `optimize_start_cells` (src/src/optimizer.rs): if code begins with
setting the first cell to a value, use mov instead of add. -/
def optimize_start_cells (ops : List Instruction) : List Instruction :=
  startCellsGo [] ops

/-- The backward scan of `optimize_zero_flags`: given the (reversed) list of
instructions before the cursor, return the instruction the source inspects.
The source's `while i < index` loop checks `ops[index-1] … ops[1]` for the
first flag-affecting instruction and otherwise falls back to `ops[0]`
unchecked; with no prior instruction at all, `ops[index - i]` underflows
(`none` models that panic). -/
def zfPrior : List Instruction → Option Instruction
  | [] => none
  | [x] => some x
  | x :: xs => if x.affects_zero_flag then some x else zfPrior xs

/-- The loop of `optimize_zero_flags`: `prior` is the reversed list of ALL
original instructions before the cursor (removed ones included — the source
scans the unmodified input vector), `acc` the reversed result.  The
`NamedBlackBox`/`"read"` test is nested inside the `AddPtr8Imm` match arm
exactly as in the source, where it can never match. -/
def zeroFlagsGo (prior acc : List Instruction) :
    List Instruction → Option (List Instruction)
  | [] => some acc.reverse
  | op :: rest =>
      match op with
      | .IsZeroPtr8 r0 =>
          match zfPrior prior with
          | none => none
          | some p =>
              if p = .IsZeroPtr8 r0 then zeroFlagsGo (op :: prior) acc rest
              else
                match p with
                | .AddPtr8Imm r1 _ =>
                    if r0 = r1 then zeroFlagsGo (op :: prior) acc rest
                    else
                      match p with
                      | .NamedBlackBox name _ _ =>
                          if name = "read" then zeroFlagsGo (op :: prior) acc rest
                          else zeroFlagsGo (op :: prior) (op :: acc) rest
                      | _ => zeroFlagsGo (op :: prior) (op :: acc) rest
                | _ => zeroFlagsGo (op :: prior) (op :: acc) rest
      | _ => zeroFlagsGo (op :: prior) (op :: acc) rest

/-- `optimize_zero_flags` (src/src/optimizer.rs): removes redundant cmp
instructions where the zero flag was set by the previous instruction.
`none` models the out-of-bounds panic on a leading `IsZeroPtr8`. -/
def optimize_zero_flags (ops : List Instruction) : Option (List Instruction) :=
  zeroFlagsGo [] [] ops

/-- The `used_labels` set of `optimize_remove_unused_labels`, as a list. -/
def collectUsedLabels (ops : List Instruction) : List String :=
  ops.foldl
    (fun acc op =>
      match op with
      | .Jump l => l :: acc
      | .JumpZero l => l :: acc
      | .JumpNonZero l => l :: acc
      | _ => acc)
    []

/-- The removal loop of `optimize_remove_unused_labels`. -/
def rulGo (used : List String) : List Instruction → List Instruction
  | [] => []
  | op :: rest =>
      match op with
      | .Label l => if l ∈ used then op :: rulGo used rest else rulGo used rest
      | _ => op :: rulGo used rest

/-- `optimize_remove_unused_labels` (src/src/optimizer.rs): removes unused
labels. -/
def optimize_remove_unused_labels (ops : List Instruction) : List Instruction :=
  rulGo (collectUsedLabels ops) ops

/-- The forward scan of `optimize_remove_dead_code`: offset and name of the
first `Label` instruction of the list, if any. -/
def findLabelIdx? : List Instruction → Option (Nat × String)
  | [] => none
  | op :: rest =>
      match op with
      | .Label l => some (0, l)
      | _ => (findLabelIdx? rest).map (fun p => (p.1 + 1, p.2))

/-- The loop of `optimize_remove_dead_code`.  On `Jump(l0)` the source scans
forward for the first `Label`; it skips the jump and the scanned-over
instructions when the label is `l0` and at least one instruction lies
between (`i > 1`), and — since `ok` is initialized to `true` — it also skips
the jump and everything after it when NO label follows and at least one
instruction does. -/
def rdcGo : List Instruction → List Instruction
  | [] => []
  | .Jump l0 :: rest =>
      match findLabelIdx? rest with
      | some (j, l1) =>
          if l1 = l0 ∧ 1 ≤ j then rdcGo (rest.drop j)
          else .Jump l0 :: rdcGo rest
      | none => if rest.isEmpty then [.Jump l0] else []
  | op :: rest => op :: rdcGo rest
termination_by l => l.length
decreasing_by
  · simp only [List.length_cons, List.length_drop]
    omega
  · simp
  · simp

/-- `optimize_remove_dead_code` (src/src/optimizer.rs): removes dead code,
i.e. unconditional jumps over sections. -/
def optimize_remove_dead_code (ops : List Instruction) : List Instruction :=
  rdcGo ops

/-- The run-collection loop of `optimize_adjancent_mem_movs`: immediates of
the maximal prefix of `MovPtr8Imm` instructions on register `r0`. -/
def takeImms (r0 : Register64) : List Instruction → List Nat
  | .MovPtr8Imm r1 i :: rest =>
      if r1 = r0 then i :: takeImms r0 rest else []
  | _ => []

/-- `usize::is_power_of_two`: nonzero and no two distinct set bits
(`n & (n - 1) == 0`). -/
def isPow2 (n : Nat) : Bool :=
  decide (n ≠ 0) && decide (n &&& (n - 1) = 0)

/-- The `while !imms.len().is_power_of_two() { imms.pop(); }` loop.  Its
argument always has between 2 and 8 elements, so it stops at length 2, 4
or 8; the `length = 0` guard only serves totality. -/
def powTrunc (l : List Nat) : List Nat :=
  if l.length = 0 then l
  else if isPow2 l.length then l
  else powTrunc l.dropLast
termination_by l.length
decreasing_by
  simp only [List.length_dropLast]
  omega

/-- Little-endian packing: `for imm in imms.into_iter().rev() { orred =
(orred << 8) | u64::from(imm) }`. -/
def packLE (imms : List Nat) : Nat :=
  imms.reverse.foldl (fun orred imm => (orred <<< 8) ||| imm) 0

/-- The `match bytes` of `optimize_adjancent_mem_movs`; the casts
`as u16`/`as u32` truncate (`% 2^w`).  `bytes` is always 2, 4 or 8 (see
`powTrunc`); other values hit the source's `unreachable!()`, modelled by the
final arm. -/
def mkWideMov (r0 : Register64) (bytes orred : Nat) : Instruction :=
  if bytes = 2 then .MovPtr16Imm r0 (orred % 2 ^ 16)
  else if bytes = 4 then .MovPtr32Imm r0 (orred % 2 ^ 32)
  else .MovPtr64Imm r0 (orred % 2 ^ 64)

/-- The loop of `optimize_adjancent_mem_movs`: collect the run of
same-register byte stores; with more than one, truncate to 8, pop to a
power-of-two length, pack little-endian, emit the wide store plus
`AddImm(r, bytes)` and advance the cursor by `bytes`. -/
def ammGo : List Instruction → List Instruction
  | [] => []
  | .MovPtr8Imm r0 imm :: rest =>
      let imms := imm :: takeImms r0 rest
      if 1 < imms.length then
        let w := powTrunc (imms.take 8)
        let bytes := w.length
        mkWideMov r0 bytes (packLE w) :: .AddImm r0 bytes ::
          ammGo (rest.drop (bytes - 1))
      else .MovPtr8Imm r0 imm :: ammGo rest
  | op :: rest => op :: ammGo rest
termination_by l => l.length
decreasing_by
  · simp only [List.length_cons, List.length_drop]
    omega
  · simp
  · simp

/-- `optimize_adjancent_mem_movs` (src/src/optimizer.rs; sic): combines
adjacent immediate memory moves. -/
def optimize_adjancent_mem_movs (ops : List Instruction) : List Instruction :=
  ammGo ops

/-- The flush block of `optimize_constant_output` (`if
!current_bytes.is_empty() { … }`): emits the three-argument write call into
the (reversed) accumulator and the named `Data` item, returning the updated
accumulator, data list and label counter.  `write_fn.clone().unwrap()`
cannot fail in the source — `write_fn` is set whenever `current_bytes` is
nonempty — so the `getD` default is never used. -/
def constFlush (acc : List Instruction) (bytes : List Nat)
    (datas : List Instruction) (wf : Option Instruction) (nlabel : Nat) :
    List Instruction × List Instruction × Nat :=
  if bytes.isEmpty then (acc, datas, nlabel)
  else
    let name := "constant_output" ++ toString nlabel
    let w := wf.getD (.BlackBox "" Effects.NOP)
    (w :: .MovImm .rdx bytes.length :: .MovImmVar .rsi name ::
       .MovImm .rdi 1 :: acc,
     datas ++ [.Data name bytes], nlabel + 1)

/-- The loop of `optimize_constant_output`: `acc` is the reversed result,
`bytes` the buffered output bytes, `datas` the `const_strings` list, `wf`
the remembered write black box, `nlabel` the label counter.  The recognizer
matches the exact 5-instruction shape; any other instruction first flushes
the buffer, then is emitted.  At the end of the vector the buffered bytes
are NOT flushed — only `const_strings` is appended. -/
def constOutGo (acc : List Instruction) (bytes : List Nat)
    (datas : List Instruction) (wf : Option Instruction) (nlabel : Nat) :
    List Instruction → List Instruction
  | .MovPtr8Imm r0 imm :: i1 :: i2 :: i3 :: i4 :: rest =>
      if i1 = .MovImm .rdi 1 ∧ i2 = .Mov .rsi r0 ∧ i3 = .MovImm .rdx 1 then
        match i4 with
        | .NamedBlackBox name f eff =>
            if name = "write" then
              constOutGo acc (bytes ++ [imm]) datas
                (match wf with
                 | some w => some w
                 | none => some (.BlackBox f eff))
                nlabel rest
            else
              match constFlush acc bytes datas wf nlabel with
              | (acc2, datas2, nl2) =>
                  constOutGo (.MovPtr8Imm r0 imm :: acc2) [] datas2 wf nl2
                    (i1 :: i2 :: i3 :: i4 :: rest)
        | _ =>
            match constFlush acc bytes datas wf nlabel with
            | (acc2, datas2, nl2) =>
                constOutGo (.MovPtr8Imm r0 imm :: acc2) [] datas2 wf nl2
                  (i1 :: i2 :: i3 :: i4 :: rest)
      else
        match constFlush acc bytes datas wf nlabel with
        | (acc2, datas2, nl2) =>
            constOutGo (.MovPtr8Imm r0 imm :: acc2) [] datas2 wf nl2
              (i1 :: i2 :: i3 :: i4 :: rest)
  | op :: rest =>
      match constFlush acc bytes datas wf nlabel with
      | (acc2, datas2, nl2) => constOutGo (op :: acc2) [] datas2 wf nl2 rest
  | [] => acc.reverse ++ datas

/-- `optimize_constant_output` (src/src/optimizer.rs): constant output cycle
used by the startup optimizer etc. -/
def optimize_constant_output (ops : List Instruction) : List Instruction :=
  constOutGo [] [] [] none 0 ops

/-- `target_abi/linux.rs` `Interface::read_byte` (the Linux ABI adapter),
with the interface label counter as an argument.  Note the EOF store is
`MovPtr8Imm(rsi, 0)`, through `rsi`, not through the `pointer` register. -/
def linux_read_byte (next_label : Nat) (pointer : Register64) :
    List Instruction :=
  let label_end := ".interface_linux" ++ toString next_label
  [.MovImm .rdi 0,
   .Mov .rsi pointer,
   .MovImm .rdx 1,
   .BlackBox "call read" ⟨true, true, false, false, true⟩,
   .IsZero .rax,
   .JumpNonZero label_end,
   .MovPtr8Imm .rsi 0,
   .Label label_end]

/-- `target_abi/macos.rs` `Interface::read_byte` (the MacOS ABI adapter). -/
def macos_read_byte (next_label : Nat) (pointer : Register64) :
    List Instruction :=
  let label_end := ".interface_macos" ++ toString next_label
  [.MovImm .rdi 0,
   .Mov .rsi pointer,
   .MovImm .rdx 1,
   .NamedBlackBox "read" "call _read" ⟨true, true, false, false, true⟩,
   .IsZero .rax,
   .JumpNonZero label_end,
   .MovPtr8Imm .rsi 0,
   .Label label_end]

/-- The cleanup edges of the pass registry built in `optimize`
(src/src/optimizer.rs), by dense `PassId`:
0 `optimize_remove_unused_labels`, 1 `optimize_start_cells`,
2 `optimize_zero_loop`, 3 `optimize_zero_flags`, 4 `optimize_remove_nops`,
5 `optimize_adjacent`, 6 `optimize_adjancent_mem_movs`,
7 `optimize_constant_output`, 8 `optimize_dead_jumps`,
9 `optimize_jump_skip_recheck`, 10 `optimize_remove_dead_code`,
11 `optimize_exit`. -/
def passCleanup : Nat → List Nat
  | 1 => [0]
  | 3 => [0]
  | 4 => [0]
  | 5 => [4]
  | 6 => [4, 2, 5]
  | 8 => [0, 4]
  | 9 => [0, 8]
  | 10 => [0, 4]
  | 11 => [0, 8, 3, 4]
  | _ => []

/-- The cleanup-enqueue loop of `optimize`'s scheduler: each cleanup id is
pushed onto the queue top (list head) unless the top already equals it. -/
def enqueueCleanups : List Nat → List Nat → List Nat
  | [], q => q
  | c :: cs, q => enqueueCleanups cs (if q.head? = some c then q else c :: q)

/-- The initial work queue: every registered pass, first-registered on top
(the source seeds a `Vec` in reverse order and pops from its end). -/
def seedQueue : List Nat := [0, 1, 2, 3, 4, 5, 6, 7, 8, 9, 10, 11]

/-- The scheduler loop of `optimize` (src/src/optimizer.rs), fuel-bounded:
pop a pass id, transform the instruction vector (`apply` stands for the
popped pass's function composed with `move_data_to_end`, which the loop runs
unconditionally after every pass), then enqueue the pass's declared cleanups.
`none` means the fuel ran out before the queue drained. -/
def runPasses (apply : Nat → List Instruction → List Instruction) :
    Nat → List Nat → List Instruction → Option (List Instruction)
  | _, [], ops => some ops
  | 0, _ :: _, _ => none
  | fuel + 1, pid :: q, ops =>
      runPasses apply fuel (enqueueCleanups (passCleanup pid) q) (apply pid ops)

/-- Whether an instruction is a `Label` (used to state side conditions of
the `remove_dead_code` characterization). -/
def isLabelInstr : Instruction → Bool
  | .Label _ => true
  | _ => false

/-- One instance of the write-one-literal-byte idiom: the 5-instruction
sequence `write_bytes(r, 1)` emits (src/src/target_abi/{linux,macos}.rs)
preceded by the byte store, exactly the shape `optimize_constant_output`
recognizes.  `f`/`e` are the assembly text and effects of the `write` black
box. -/
def mkWriteIdiom (q : Register64 × Nat × String × Effects) : List Instruction :=
  match q with
  | (r, b, f, e) =>
      [.MovPtr8Imm r b, .MovImm .rdi 1, .Mov .rsi r, .MovImm .rdx 1,
       .NamedBlackBox "write" f e]

/-!  ## Theorems  -/

/-- Claim C1 (refutation).  For the token sequence of the source program
`"+[]"` the startup partial evaluator does NOT reach completion or a
blocked-on-`Input` state after finitely many interpreter steps: lowering
produces `plusLoopSteps`, the peephole pass leaves them unchanged, and after
any number `n` of iterations the driver loop of `State::optimize_startup` is
still running (the state is `some s` with `s.index ≠ steps.len()`, i.e.
neither blocked nor done), so `optimize_startup` never returns.  From the
third step on the interpreter is stuck on the fixed point
`⟨3, [1], 0, []⟩`: the conditional jump back to the empty loop body re-runs
forever because the current cell stays 1. -/
theorem startup_plus_loop_never_finishes :
    (State.appendAll State.new plusLoopTokens).map State.steps
        = some plusLoopSteps ∧
    optimize_peephole_combine plusLoopSteps = some plusLoopSteps ∧
    ∀ n : Nat, ∃ s : StepInterpreterState,
      (startupLoopIter plusLoopSteps)^[n] (some startupInit) = some s ∧
        s.index ≠ plusLoopSteps.length := by
  refine ⟨by decide, ?_, ?_⟩
  · simp [optimize_peephole_combine, peepholeGo, State.combine, plusLoopSteps]
  · have hfix : startupLoopIter plusLoopSteps (some ⟨3, [1], 0, []⟩)
        = some ⟨3, [1], 0, []⟩ := by decide
    have hk : ∀ m : Nat, (startupLoopIter plusLoopSteps)^[m + 3]
        (some startupInit) = some ⟨3, [1], 0, []⟩ := by
      intro m
      induction m with
      | zero => decide
      | succ k ih =>
          have h3 : k + 1 + 3 = (k + 3) + 1 := by omega
          rw [h3, Function.iterate_succ_apply', ih, hfix]
    intro n
    match n with
    | 0 => exact ⟨startupInit, by decide, by decide⟩
    | 1 => exact ⟨⟨1, [1], 0, []⟩, by decide, by decide⟩
    | 2 => exact ⟨⟨2, [1], 0, []⟩, by decide, by decide⟩
    | m + 3 => exact ⟨⟨3, [1], 0, []⟩, hk m, by decide⟩

/-- Claim C2 (refutation).  In `State::combine` the `Prev(a), Next(b)` arm
has its subtraction directions swapped: at `a = 1 < b = 2` the source
computes `Next(a - b)`, whose `u64` subtraction underflows and wraps to
`2^64 - 1` (in a debug build it panics), instead of the claimed
`Next(b - a) = Next(1)`. -/
theorem combine_prev_next_wraps :
    State.combine (.Prev 1) (.Next 2) = some [.Next (2 ^ 64 - 1)] ∧
    State.combine (.Prev 1) (.Next 2) ≠ some [.Next 1] := by
  constructor
  · decide
  · decide

/-- Claim C3 (refutation).  On `[AddPtr8Imm(rbx,5), AddPtr8Imm(rbx,0),
AddImm(rbx,1)]` the pass `optimize_start_cells` first rewrites position 0 to
`MovPtr8Imm(rbx,5)`, but when it then meets `AddPtr8Imm(rbx,0)` it executes
`ops.remove(0)`, deleting the rewritten store at position 0 rather than the
zero add itself; the result is `[AddPtr8Imm(rbx,0), AddImm(rbx,1)]`, not the
claimed `[MovPtr8Imm(rbx,5), AddImm(rbx,1)]`. -/
theorem start_cells_removes_first_instruction :
    optimize_start_cells
        [.AddPtr8Imm .rbx 5, .AddPtr8Imm .rbx 0, .AddImm .rbx 1]
      = [.AddPtr8Imm .rbx 0, .AddImm .rbx 1] ∧
    optimize_start_cells
        [.AddPtr8Imm .rbx 5, .AddPtr8Imm .rbx 0, .AddImm .rbx 1]
      ≠ [.MovPtr8Imm .rbx 5, .AddImm .rbx 1] := by
  constructor
  · decide
  · decide

/-- Claim C5 (refutation).  In `optimize_zero_flags` the `NamedBlackBox`
`"read"` test is nested inside the `AddPtr8Imm` match arm on the same
scrutinee and therefore can never match: with the nearest prior
flag-affecting instruction being the `read` black box, the following
`IsZeroPtr8(rbx)` is kept (the output equals the input), although the claim
says it is removed. -/
theorem zero_flags_read_box_not_removed :
    optimize_zero_flags
        [.NamedBlackBox "read" "call _read" ⟨true, true, false, false, true⟩,
         .IsZeroPtr8 .rbx]
      = some
        [.NamedBlackBox "read" "call _read" ⟨true, true, false, false, true⟩,
         .IsZeroPtr8 .rbx] ∧
    Instruction.affects_zero_flag
        (.NamedBlackBox "read" "call _read" ⟨true, true, false, false, true⟩)
      = true := by
  constructor
  · decide
  · decide

/-- Helper: the forward scan finds the first `Label` after a label-free
block. -/
theorem findLabelIdx_append (mid : List Instruction) (l1 : String)
    (post : List Instruction) (h : ∀ x ∈ mid, isLabelInstr x = false) :
    findLabelIdx? (mid ++ .Label l1 :: post) = some (mid.length, l1) := by
  induction mid with
  | nil => simp [findLabelIdx?]
  | cons a as ih =>
      have ha : isLabelInstr a = false := h a (by simp)
      have hrest : ∀ x ∈ as, isLabelInstr x = false :=
        fun x hx => h x (by simp [hx])
      cases a <;> simp_all [findLabelIdx?, isLabelInstr]

/-- Helper: the forward scan finds nothing in a label-free list. -/
theorem findLabelIdx_none (mid : List Instruction)
    (h : ∀ x ∈ mid, isLabelInstr x = false) :
    findLabelIdx? mid = none := by
  induction mid with
  | nil => simp [findLabelIdx?]
  | cons a as ih =>
      have ha : isLabelInstr a = false := h a (by simp)
      have hrest : ∀ x ∈ as, isLabelInstr x = false :=
        fun x hx => h x (by simp [hx])
      cases a <;> simp_all [findLabelIdx?, isLabelInstr]

/-- Claim C6 (counterexample).  `optimize_remove_dead_code` does not leave
the `Jump` itself in the output: on `[Jump "a", MovImm(rax,1), Label "a"]`
it returns `[Label "a"]`, not `[Jump "a", Label "a"]` as the claim's
"elides exactly the instructions lying strictly between" requires; and when
no `Label` follows the `Jump` at all it drops the `Jump` and everything
after it: on `[Jump "a", MovImm(rax,1)]` it returns `[]`, not the
unchanged input. -/
theorem remove_dead_code_claim_false :
    optimize_remove_dead_code [.Jump "a", .MovImm .rax 1, .Label "a"]
      = [.Label "a"] ∧
    optimize_remove_dead_code [.Jump "a", .MovImm .rax 1, .Label "a"]
      ≠ [.Jump "a", .Label "a"] ∧
    optimize_remove_dead_code [.Jump "a", .MovImm .rax 1] = [] ∧
    optimize_remove_dead_code [.Jump "a", .MovImm .rax 1]
      ≠ [.Jump "a", .MovImm .rax 1] := by
  have e1 : optimize_remove_dead_code [.Jump "a", .MovImm .rax 1, .Label "a"]
      = [.Label "a"] := by
    simp [optimize_remove_dead_code, rdcGo, findLabelIdx?]
  have e2 : optimize_remove_dead_code [.Jump "a", .MovImm .rax 1] = [] := by
    simp [optimize_remove_dead_code, rdcGo, findLabelIdx?]
  refine ⟨e1, ?_, e2, ?_⟩
  · rw [e1]; decide
  · rw [e2]; decide

/-- Claim C6 (amended).  `optimize_remove_dead_code` (i) elides the
unconditional `Jump(L)` itself together with the instructions strictly
between it and the next `Label` when that label is `L` and at least one
instruction lies strictly between; (ii) when at least one instruction but
no `Label` follows the `Jump`, it elides the `Jump` and everything after
it; (iii) a `Jump` that is the last instruction, or immediately followed by
a `Label`, is kept, as is every non-`Jump` instruction, with scanning
continuing behind it. -/
theorem remove_dead_code_characterization :
    (∀ (l0 l1 : String) (mid post : List Instruction),
        (∀ x ∈ mid, isLabelInstr x = false) → mid ≠ [] →
        optimize_remove_dead_code (.Jump l0 :: (mid ++ .Label l1 :: post))
          = if l1 = l0 then optimize_remove_dead_code (.Label l1 :: post)
            else .Jump l0
              :: optimize_remove_dead_code (mid ++ .Label l1 :: post)) ∧
    (∀ (l0 : String) (mid : List Instruction),
        (∀ x ∈ mid, isLabelInstr x = false) → mid ≠ [] →
        optimize_remove_dead_code (.Jump l0 :: mid) = []) ∧
    (∀ l0 : String, optimize_remove_dead_code [.Jump l0] = [.Jump l0]) ∧
    (∀ (l0 l1 : String) (post : List Instruction),
        optimize_remove_dead_code (.Jump l0 :: .Label l1 :: post)
          = .Jump l0 :: optimize_remove_dead_code (.Label l1 :: post)) ∧
    (∀ (op : Instruction) (rest : List Instruction),
        (∀ l, op ≠ .Jump l) →
        optimize_remove_dead_code (op :: rest)
          = op :: optimize_remove_dead_code rest) := by
  refine ⟨?_, ?_, ?_, ?_, ?_⟩
  · intro l0 l1 mid post hmid hne
    have hfind := findLabelIdx_append mid l1 post hmid
    have hlen : 0 < mid.length := List.length_pos.mpr hne
    simp only [optimize_remove_dead_code]
    rw [rdcGo.eq_2, hfind]
    dsimp only
    by_cases hll : l1 = l0
    · have hlen2 : 1 ≤ mid.length := hlen
      rw [if_pos (And.intro hll hlen2), List.drop_left, if_pos hll]
    · rw [if_neg (by simp [hll]), if_neg hll]
  · intro l0 mid hmid hne
    have hfind := findLabelIdx_none mid hmid
    rw [optimize_remove_dead_code, rdcGo.eq_2, hfind]
    dsimp only
    simp [List.isEmpty_iff, hne]
  · intro l0
    rw [optimize_remove_dead_code, rdcGo.eq_2]
    simp [findLabelIdx?]
  · intro l0 l1 post
    rw [optimize_remove_dead_code, optimize_remove_dead_code, rdcGo.eq_2]
    simp [findLabelIdx?]
  · intro op rest hop
    rw [optimize_remove_dead_code, optimize_remove_dead_code, rdcGo.eq_3]
    intro s h
    exact hop s h

/-- Witness for the C6 characterization at concrete inputs: the firing case
`[Jump "a", MovImm(rax,1), Label "a"]` and the kept case `[Jump "b"]`. -/
theorem remove_dead_code_characterization_witness :
    optimize_remove_dead_code [.Jump "a", .MovImm .rax 1, .Label "a"]
      = [.Label "a"] ∧
    optimize_remove_dead_code [.Jump "b"] = [.Jump "b"] := by
  have h1 := remove_dead_code_characterization.1 "a" "a" [.MovImm .rax 1] []
    (by decide) (by decide)
  have h2 := remove_dead_code_characterization.2.2.1 "b"
  constructor
  · simpa [optimize_remove_dead_code, rdcGo] using h1
  · exact h2

/-- Claim C4 (counterexample).  Neither ABI adapter's `read_byte(rbx)`
contains a store through the pointer register itself: the end-of-file store
`MovPtr8Imm(rbx, 0)` the claim describes appears in neither sequence (the
actual store goes through `rsi`). -/
theorem read_byte_eof_store_not_through_pointer :
    Instruction.MovPtr8Imm .rbx 0 ∉ linux_read_byte 0 .rbx ∧
    Instruction.MovPtr8Imm .rbx 0 ∉ macos_read_byte 0 .rbx := by
  constructor <;> decide

/-- Claim C4 (amended).  For every register `r` and both ABI adapters,
`read_byte(r)` handles end-of-file by storing the literal byte 0 through
register `rsi` — to which `r` was copied by the `Mov(rsi, r)` at position 1,
before the read call — rather than through `r` itself: the EOF store at
position 6 is `MovPtr8Imm(rsi, 0)`, and for `r ≠ rsi` no store through `r`
occurs anywhere in the sequence. -/
theorem read_byte_eof_store_through_rsi :
    ∀ (n : Nat) (r : Register64),
      (linux_read_byte n r).get? 1 = some (.Mov .rsi r) ∧
      (linux_read_byte n r).get? 6 = some (.MovPtr8Imm .rsi 0) ∧
      (r ≠ .rsi → ∀ b, Instruction.MovPtr8Imm r b ∉ linux_read_byte n r) ∧
      (macos_read_byte n r).get? 1 = some (.Mov .rsi r) ∧
      (macos_read_byte n r).get? 6 = some (.MovPtr8Imm .rsi 0) ∧
      (r ≠ .rsi → ∀ b, Instruction.MovPtr8Imm r b ∉ macos_read_byte n r) := by
  intro n r
  refine ⟨rfl, rfl, ?_, rfl, rfl, ?_⟩ <;>
    · intro hne b hmem
      simp [linux_read_byte, macos_read_byte] at hmem
      exact hne hmem.1

/-- Witness for the C4 amended theorem at `n = 0`, `r = rbx`. -/
theorem read_byte_eof_store_through_rsi_witness :
    (linux_read_byte 0 .rbx).get? 1 = some (.Mov .rsi .rbx) ∧
    (linux_read_byte 0 .rbx).get? 6 = some (.MovPtr8Imm .rsi 0) ∧
    Instruction.MovPtr8Imm .rbx 5 ∉ linux_read_byte 0 .rbx ∧
    (macos_read_byte 0 .rbx).get? 6 = some (.MovPtr8Imm .rsi 0) := by
  have h := read_byte_eof_store_through_rsi 0 .rbx
  exact ⟨h.1, h.2.1, h.2.2.1 (by decide) 5, h.2.2.2.2.1⟩

/-- Claim C7.  The low-IR pass scheduler terminates for every input
instruction vector: with the LIFO queue seeded with all twelve registered
passes and each executed pass re-enqueueing its declared cleanups (skipping
a cleanup equal to the current queue top), the queue drains within 37 pass
executions — whatever the passes do to the instruction vector (`apply` is
universally quantified, covering the actual pass functions composed with
`move_data_to_end`). -/
theorem pass_scheduler_drains :
    ∀ (apply : Nat → List Instruction → List Instruction)
      (ops : List Instruction),
      ∃ result, runPasses apply 37 seedQueue ops = some result := by
  intro apply ops
  exact ⟨_, rfl⟩

/-- Helper: membership in the `used_labels` set collected by
`optimize_remove_unused_labels` is exactly "some jump instruction of the
vector mentions the name". -/
theorem mem_collectUsedLabels (ops : List Instruction) (l : String) :
    l ∈ collectUsedLabels ops ↔
      ∃ j ∈ ops, j = .Jump l ∨ j = .JumpZero l ∨ j = .JumpNonZero l := by
  have key : ∀ (os : List Instruction) (acc : List String),
      l ∈ os.foldl
          (fun acc op =>
            match op with
            | .Jump s => s :: acc
            | .JumpZero s => s :: acc
            | .JumpNonZero s => s :: acc
            | _ => acc) acc ↔
        l ∈ acc ∨
          ∃ j ∈ os, j = .Jump l ∨ j = .JumpZero l ∨ j = .JumpNonZero l := by
    intro os
    induction os with
    | nil => intro acc; simp
    | cons op rest ih =>
        intro acc
        rw [List.foldl_cons, ih]
        cases op <;> simp_all <;> aesop
  rw [collectUsedLabels, key]
  simp

/-- Helper: the removal loop of `optimize_remove_unused_labels` is a filter
keeping non-labels and the labels whose name is in `used`. -/
theorem rulGo_filter (used : List String) (l : List Instruction) :
    rulGo used l
      = l.filter (fun op =>
          match op with
          | .Label s => decide (s ∈ used)
          | _ => true) := by
  induction l with
  | nil => simp [rulGo]
  | cons op rest ih =>
      cases op <;> simp [rulGo, ih, List.filter] <;> split <;> simp_all

/-- Claim C9.  `optimize_remove_unused_labels` removes exactly those
`Label(x)` instructions whose name appears in no `Jump`, `JumpZero`, or
`JumpNonZero` instruction of the vector: the result is the filter of the
input that keeps every non-`Label` instruction (hence in order) and exactly
the labels referenced by some jump. -/
theorem remove_unused_labels_filter :
    ∀ ops : List Instruction,
      optimize_remove_unused_labels ops
        = ops.filter (fun op =>
            match op with
            | .Label l => ops.any (fun j =>
                decide (j = .Jump l ∨ j = .JumpZero l ∨ j = .JumpNonZero l))
            | _ => true) := by
  intro ops
  rw [optimize_remove_unused_labels, rulGo_filter]
  apply List.filter_congr
  intro x hx
  cases x with
  | Label l =>
      dsimp only
      by_cases h : l ∈ collectUsedLabels ops
      · rw [decide_eq_true h]
        obtain ⟨j, hj, hcase⟩ := (mem_collectUsedLabels ops l).mp h
        have hany : ops.any (fun j =>
            decide (j = .Jump l ∨ j = .JumpZero l ∨ j = .JumpNonZero l))
              = true := by
          rw [List.any_eq_true]
          exact ⟨j, hj, by simpa using hcase⟩
        rw [hany]
      · rw [decide_eq_false h]
        have hany : ops.any (fun j =>
            decide (j = .Jump l ∨ j = .JumpZero l ∨ j = .JumpNonZero l))
              = false := by
          rw [List.any_eq_false]
          intro j hj
          simp only [decide_eq_true_eq]
          intro hcase
          exact h ((mem_collectUsedLabels ops l).mpr ⟨j, hj, hcase⟩)
        rw [hany]
  | _ => rfl

/-- Helper: the run collection stops immediately when the next instruction
is not a byte store on the same register. -/
theorem takeImms_of_head_not_mov (r : Register64) (post : List Instruction)
    (h : ∀ b', post.head? ≠ some (.MovPtr8Imm r b')) :
    takeImms r post = [] := by
  cases post with
  | nil => rfl
  | cons hd tl =>
      cases hd <;> simp [takeImms]
      rename_i r1 i
      intro hr
      exact absurd (by simp [hr]) (h i)

/-- Claim C8.  A maximal run of exactly four `MovPtr8Imm(r, b0..b3)` on the
same register (nothing same-register follows) is replaced by
`MovPtr32Imm(r, b0 + b1·2^8 + b2·2^16 + b3·2^24)` — the little-endian
packing `b0 | b1<<8 | b2<<16 | b3<<24` — followed by `AddImm(r, 4)`; the
final conjuncts recover each byte of the packed immediate, so the bytes at
`[r] … [r+3]` are `b0 … b3`. -/
theorem adjacent_mem_movs_pack_four :
    ∀ (r : Register64) (b0 b1 b2 b3 : Nat) (post : List Instruction),
      b0 < 256 → b1 < 256 → b2 < 256 → b3 < 256 →
      (∀ b', post.head? ≠ some (.MovPtr8Imm r b')) →
      optimize_adjancent_mem_movs
          (.MovPtr8Imm r b0 :: .MovPtr8Imm r b1 :: .MovPtr8Imm r b2 ::
            .MovPtr8Imm r b3 :: post)
        = .MovPtr32Imm r (b0 + b1 * 2 ^ 8 + b2 * 2 ^ 16 + b3 * 2 ^ 24)
            :: .AddImm r 4 :: optimize_adjancent_mem_movs post ∧
      (b0 + b1 * 2 ^ 8 + b2 * 2 ^ 16 + b3 * 2 ^ 24) % 2 ^ 8 = b0 ∧
      (b0 + b1 * 2 ^ 8 + b2 * 2 ^ 16 + b3 * 2 ^ 24) / 2 ^ 8 % 2 ^ 8 = b1 ∧
      (b0 + b1 * 2 ^ 8 + b2 * 2 ^ 16 + b3 * 2 ^ 24) / 2 ^ 16 % 2 ^ 8 = b2 ∧
      (b0 + b1 * 2 ^ 8 + b2 * 2 ^ 16 + b3 * 2 ^ 24) / 2 ^ 24 % 2 ^ 8 = b3 := by
  intro r b0 b1 b2 b3 post hb0 hb1 hb2 hb3 hpost
  have htake := takeImms_of_head_not_mov r post hpost
  have h32 : ∀ x y : Nat, y < 256 → x <<< 8 ||| y = x * 256 + y := by
    intro x y hy
    have hy2 : y < 2 ^ 8 := hy
    rw [Nat.shiftLeft_eq, show (2:Nat)^8 = 256 from rfl, mul_comm]
    exact (Nat.mul_add_lt_is_or hy2 x).symm
  have hpack : packLE [b0, b1, b2, b3]
      = b0 + b1 * 2 ^ 8 + b2 * 2 ^ 16 + b3 * 2 ^ 24 := by
    simp only [packLE, List.reverse_cons, List.reverse_nil, List.nil_append,
      List.cons_append, List.foldl_cons, List.foldl_nil]
    rw [h32 _ _ hb3, h32 _ _ hb2, h32 _ _ hb1, h32 _ _ hb0]
    omega
  have hpow : powTrunc [b0, b1, b2, b3] = [b0, b1, b2, b3] := by
    rw [powTrunc.eq_def]
    norm_num [show isPow2 4 = true from rfl]
  have htk8 : List.take 8 [b0, b1, b2, b3] = [b0, b1, b2, b3] :=
    List.take_of_length_le (by simp)
  have hdrop : List.drop 3
      (Instruction.MovPtr8Imm r b1 :: .MovPtr8Imm r b2 ::
        .MovPtr8Imm r b3 :: post) = post := rfl
  have hmod : (b0 + b1 * 2 ^ 8 + b2 * 2 ^ 16 + b3 * 2 ^ 24) % 2 ^ 32
      = b0 + b1 * 2 ^ 8 + b2 * 2 ^ 16 + b3 * 2 ^ 24 :=
    Nat.mod_eq_of_lt (by omega)
  refine ⟨?_, by omega, by omega, by omega, by omega⟩
  rw [optimize_adjancent_mem_movs, ammGo.eq_2]
  simp only [takeImms, if_pos rfl, htake, if_true, ite_true]
  rw [htk8, hpow]
  simp only [List.length_cons, List.length_nil]
  norm_num [mkWideMov, hpack, hmod, hdrop]
  exact ⟨by omega, rfl⟩

/-- Witness for C8 at `r = rbx`, bytes 1, 2, 3, 4 and empty tail:
`1 + 2·2^8 + 3·2^16 + 4·2^24 = 67305985`. -/
theorem adjacent_mem_movs_pack_four_witness :
    optimize_adjancent_mem_movs
        [.MovPtr8Imm .rbx 1, .MovPtr8Imm .rbx 2, .MovPtr8Imm .rbx 3,
         .MovPtr8Imm .rbx 4]
      = [.MovPtr32Imm .rbx 67305985, .AddImm .rbx 4] := by
  have h := adjacent_mem_movs_pack_four .rbx 1 2 3 4 []
    (by norm_num) (by norm_num) (by norm_num) (by norm_num) (by simp)
  have h0 : optimize_adjancent_mem_movs ([] : List Instruction) = [] := by
    simp [optimize_adjancent_mem_movs, ammGo]
  have h1 := h.1
  rw [h0] at h1
  norm_num at h1
  exact h1

/-- Claim C10.  When an instruction vector ends with one or more instances
of the 5-instruction write-one-literal-byte idiom with nothing after the
last instance, `optimize_constant_output` removes those instances without
emitting any replacement write call or `Data` item for the collected bytes:
from any intermediate loop state the processing of such a trailing run
contributes nothing beyond the already-accumulated result and
`const_strings` (the buffered bytes are flushed only when a later
non-matching instruction is encountered), and on a vector consisting of the
instances alone the output is empty. -/
theorem constant_output_trailing_dropped :
    ∀ (items : List (Register64 × Nat × String × Effects)),
      items ≠ [] →
      (∀ (acc : List Instruction) (bytes : List Nat)
          (datas : List Instruction) (wf : Option Instruction) (nlabel : Nat),
        constOutGo acc bytes datas wf nlabel (items.flatMap mkWriteIdiom)
          = acc.reverse ++ datas) ∧
      optimize_constant_output (items.flatMap mkWriteIdiom) = [] := by
  intro items hne
  have aux : ∀ (its : List (Register64 × Nat × String × Effects))
      (acc : List Instruction) (bytes : List Nat) (datas : List Instruction)
      (wf : Option Instruction) (nlabel : Nat),
      constOutGo acc bytes datas wf nlabel (its.flatMap mkWriteIdiom)
        = acc.reverse ++ datas := by
    intro its
    induction its with
    | nil => intro acc bytes datas wf nlabel; simp [constOutGo]
    | cons q rest ih =>
        intro acc bytes datas wf nlabel
        obtain ⟨r, b, f, e⟩ := q
        simp only [List.flatMap_cons, mkWriteIdiom, List.cons_append,
          List.nil_append]
        simp [constOutGo, ih]
  refine ⟨aux items, ?_⟩
  have h := aux items [] [] [] none 0
  simpa [optimize_constant_output] using h

/-- Witness for C10: a single trailing write-idiom instance (byte 65
through rbx) is dropped entirely. -/
theorem constant_output_trailing_dropped_witness :
    optimize_constant_output
        (([(Register64.rbx, 65, "call write", Effects.VOLATILE)]).flatMap
          mkWriteIdiom)
      = [] :=
  (constant_output_trailing_dropped
    [(Register64.rbx, 65, "call write", Effects.VOLATILE)] (by simp)).2

/-- Witness for C1 at `n = 10`: after ten loop iterations the evaluator is
still running. -/
theorem startup_plus_loop_never_finishes_witness :
    ∃ s : StepInterpreterState,
      (startupLoopIter plusLoopSteps)^[10] (some startupInit) = some s ∧
        s.index ≠ plusLoopSteps.length :=
  startup_plus_loop_never_finishes.2.2 10

/-- Witness for C7 with the identity pass function and the empty program. -/
theorem pass_scheduler_drains_witness :
    ∃ result,
      runPasses (fun _ ops => ops) 37 seedQueue ([] : List Instruction)
        = some result :=
  pass_scheduler_drains (fun _ ops => ops) []

/-- Witness for C9 at a concrete vector: the unreferenced `Label "x"` is
removed, the referenced `Label "y"` stays. -/
theorem remove_unused_labels_filter_witness :
    optimize_remove_unused_labels
        [.Label "x", .JumpNonZero "y", .Label "y"]
      = [.JumpNonZero "y", .Label "y"] := by
  have h := remove_unused_labels_filter
    [.Label "x", .JumpNonZero "y", .Label "y"]
  simpa using h

end BrainOpt
